import Mathlib

/-
Verification of poke-tools (TypeScript) against its specification.

Each section shallowly embeds one component of the repository:

* `Moltbook`   — MoltbookPollingHandler (ID-set dedup with cap/trim)
* `Polling`    — PollingManager (interval scheduler with error isolation)
* `Session`    — BitwardenSessionManager (vault session lifecycle)
* `Supervisor` — SubprocessManager (crash/restart supervision)
* `BwCli`      — BitwardenCli command queue (promise-chain serialization)
* `Telegram`   — TelegramMessageState / TelegramPollingModule (cursor dedup)

Pure functions are translated directly; stateful classes become explicit
state-passing functions; `async` calls that can reject take their outcome
as an explicit parameter (`Bool` success flag or `Option` result).
-/

namespace Moltbook

/-- Constant `MAX_SEEN_IDS = 1000` from the handler module. -/
def MAX_SEEN_IDS : Nat := 1000

/-- Constant `TRIM_TO_IDS = 500` from the handler module. -/
def TRIM_TO_IDS : Nat := 500

/-- A Moltbook feed post.  Only the `id` field participates in the dedup
logic of `MoltbookPollingHandler.poll` (title/author/content only feed the
formatter, which does not affect which posts are forwarded), so the
embedding carries just the id. -/
structure Post where
  id : String
deriving DecidableEq, Repr

/-- Insertion into a JS `Set`: keeps insertion order, ignores an element
that is already present.  The JS `Set<string>` is modelled as a `List`
in insertion order with no duplicates. -/
def setAdd {α : Type} [DecidableEq α] (l : List α) (x : α) : List α :=
  if x ∈ l then l else l ++ [x]

/-- `MoltbookPollingHandler.trimSeenIds`: when the set exceeds
`MAX_SEEN_IDS`, replace it by `Array.from(set).slice(-TRIM_TO_IDS)` —
the last (most recently inserted) `TRIM_TO_IDS` elements. -/
def trimSeenIds {α : Type} (l : List α) : List α :=
  if l.length > MAX_SEEN_IDS then l.drop (l.length - TRIM_TO_IDS) else l

/-- Mutable state of a `MoltbookPollingHandler`: the `seenPostIds` set
(insertion order) and the `isFirstPoll` flag. -/
structure PollState where
  seenPostIds : List String
  isFirstPoll : Bool
deriving Repr

/-- The forwarding loop inside `poll`: for each new post (already
filtered and reversed), attempt `pokeClient.sendInboundMessage`; on
success add the id to the seen set, on failure skip the add so the post
is retried next poll.  `fw` gives the outcome of the send for each post
id.  Returns the updated seen set and the ids forwarded, in order. -/
def forwardLoop (seen : List String) (ps : List Post) (fw : String → Bool) :
    List String × List String :=
  match ps with
  | [] => (seen, [])
  | p :: rest =>
    if fw p.id then
      let r := forwardLoop (setAdd seen p.id) rest fw
      (r.1, p.id :: r.2)
    else
      forwardLoop seen rest fw

/-- `MoltbookPollingHandler.poll` for a successful fetch returning
`posts`: on the first poll, add every fetched id to the seen set and
forward nothing; otherwise filter out seen ids, reverse (oldest first),
run the forwarding loop, and trim the seen set.  Returns the new state
and the list of forwarded post ids in forwarding order. -/
def poll (st : PollState) (posts : List Post) (fw : String → Bool) :
    PollState × List String :=
  if st.isFirstPoll then
    ({ seenPostIds := posts.foldl (fun s p => setAdd s p.id) st.seenPostIds,
       isFirstPoll := false }, [])
  else
    let newPosts := (posts.filter (fun p => p.id ∉ st.seenPostIds)).reverse
    let r := forwardLoop st.seenPostIds newPosts fw
    ({ seenPostIds := trimSeenIds r.1, isFirstPoll := false }, r.2)

/-- Folding `setAdd` over fresh distinct elements appends them all. -/
theorem foldl_setAdd_of_fresh {α : Type} [DecidableEq α] :
    ∀ (ids l : List α), (∀ x ∈ ids, x ∉ l) → ids.Nodup →
      List.foldl setAdd l ids = l ++ ids := by
  intro ids
  induction ids with
  | nil => intro l _ _; simp
  | cons a as ih =>
    intro l hd hn
    simp only [List.foldl_cons, setAdd]
    rw [if_neg (hd a (by simp))]
    rw [ih (l ++ [a])]
    · simp
    · intro x hx
      simp only [List.mem_append, List.mem_singleton]
      rintro (h1 | h1)
      · exact hd x (by simp [hx]) h1
      · subst h1; exact (List.nodup_cons.mp hn).1 hx
    · exact (List.nodup_cons.mp hn).2

/-- Membership in a `setAdd` result. -/
theorem mem_setAdd {α : Type} [DecidableEq α] (l : List α) (x y : α) :
    y ∈ setAdd l x ↔ y ∈ l ∨ y = x := by
  unfold setAdd
  by_cases h : x ∈ l
  · rw [if_pos h]
    constructor
    · exact Or.inl
    · rintro (h1 | rfl) <;> [exact h1; exact h]
  · rw [if_neg h]; simp

/-- An id whose forward failed and that was not already seen stays out of
the seen set produced by the forwarding loop. -/
theorem forwardLoop_not_seen_of_fail (x : String) (fw : String → Bool)
    (hfail : fw x = false) :
    ∀ (ps : List Post) (seen : List String), x ∉ seen →
      x ∉ (forwardLoop seen ps fw).1 := by
  intro ps
  induction ps with
  | nil => intro seen hx; simpa [forwardLoop] using hx
  | cons p rest ih =>
    intro seen hx
    unfold forwardLoop
    by_cases hp : fw p.id = true
    · rw [if_pos hp]
      apply ih
      rw [mem_setAdd]
      rintro (h1 | rfl)
      · exact hx h1
      · rw [hfail] at hp; exact Bool.false_ne_true hp
    · rw [if_neg hp]
      exact ih seen hx

/-- A post in the loop input whose forward succeeds has its id among the
forwarded ids. -/
theorem forwardLoop_mem_forwards (p : Post) (fw : String → Bool)
    (hok : fw p.id = true) :
    ∀ (ps : List Post) (seen : List String), p ∈ ps →
      p.id ∈ (forwardLoop seen ps fw).2 := by
  intro ps
  induction ps with
  | nil => intro seen hp; cases hp
  | cons q rest ih =>
    intro seen hp
    unfold forwardLoop
    rcases List.mem_cons.mp hp with rfl | hmem
    · rw [if_pos hok]; simp
    · by_cases hq : fw q.id = true
      · rw [if_pos hq]
        simp only [List.mem_cons]
        exact Or.inr (ih _ hmem)
      · rw [if_neg hq]
        exact ih seen hmem

/-- When every forward succeeds, the loop forwards exactly the ids of
its input, in input order. -/
theorem forwardLoop_all_ok (fw : String → Bool) (hfw : ∀ x, fw x = true) :
    ∀ (ps : List Post) (seen : List String),
      (forwardLoop seen ps fw).2 = ps.map Post.id := by
  intro ps
  induction ps with
  | nil => intro seen; rfl
  | cons p rest ih =>
    intro seen
    unfold forwardLoop
    rw [if_pos (hfw p.id)]
    simp [ih]

/-- Everything in a trimmed seen set was in the untrimmed one. -/
theorem mem_of_mem_trimSeenIds {α : Type} (l : List α) (x : α)
    (hx : x ∈ trimSeenIds l) : x ∈ l := by
  unfold trimSeenIds at hx
  by_cases h : l.length > MAX_SEEN_IDS
  · rw [if_pos h] at hx
    exact List.mem_of_mem_drop hx
  · rwa [if_neg h] at hx

/-- Membership is preserved when folding further `setAdd`s on top. -/
theorem mem_foldl_setAdd_of_mem (x : String) :
    ∀ (ps : List Post) (seen : List String), x ∈ seen →
      x ∈ ps.foldl (fun s p => setAdd s p.id) seen := by
  intro ps
  induction ps with
  | nil => intro seen hx; simpa using hx
  | cons p rest ih =>
    intro seen hx
    simp only [List.foldl_cons]
    exact ih _ ((mem_setAdd _ _ _).mpr (Or.inl hx))

/-- Every id of the folded-in posts ends up in the seen set. -/
theorem mem_foldl_setAdd (p : Post) :
    ∀ (ps : List Post) (seen : List String), p ∈ ps →
      p.id ∈ ps.foldl (fun s q => setAdd s q.id) seen := by
  intro ps
  induction ps with
  | nil => intro seen hp; cases hp
  | cons q rest ih =>
    intro seen hp
    simp only [List.foldl_cons]
    rcases List.mem_cons.mp hp with rfl | hmem
    · exact mem_foldl_setAdd_of_mem _ _ _ ((mem_setAdd _ _ _).mpr (Or.inr rfl))
    · exact ih _ hmem

/-- C9: after a poll, a seen-id set holding more than 1000 entries is
trimmed to exactly the 500 most recently inserted ids (a suffix of the
insertion order), all older ids being dropped; in particular inserting
1001 distinct ids and trimming leaves exactly the last-inserted 500. -/
theorem trim_keeps_most_recent_500 {α : Type} [DecidableEq α]
    (l ids : List α) (hl : MAX_SEEN_IDS < l.length)
    (hn : ids.Nodup) (hlen : ids.length = 1001) :
    trimSeenIds l = l.drop (l.length - TRIM_TO_IDS)
    ∧ (trimSeenIds l).length = TRIM_TO_IDS
    ∧ trimSeenIds l <:+ l
    ∧ trimSeenIds (ids.foldl setAdd []) = ids.drop 501
    ∧ (trimSeenIds (ids.foldl setAdd [])).length = 500
    ∧ trimSeenIds (ids.foldl setAdd []) <:+ ids := by
  have htrim : trimSeenIds l = l.drop (l.length - TRIM_TO_IDS) := by
    unfold trimSeenIds
    rw [if_pos hl]
  have hfold : ids.foldl setAdd [] = ids := by
    have := foldl_setAdd_of_fresh ids ([] : List α) (by simp) hn
    simpa using this
  have hfoldtrim : trimSeenIds (ids.foldl setAdd []) = ids.drop 501 := by
    rw [hfold]
    unfold trimSeenIds
    rw [if_pos (by rw [hlen]; norm_num [MAX_SEEN_IDS])]
    rw [hlen]
    norm_num [TRIM_TO_IDS]
  refine ⟨htrim, ?_, ?_, hfoldtrim, ?_, ?_⟩
  · rw [htrim, List.length_drop]
    unfold MAX_SEEN_IDS at hl
    unfold TRIM_TO_IDS
    omega
  · rw [htrim]; exact List.drop_suffix _ l
  · rw [hfoldtrim, List.length_drop, hlen]
  · rw [hfoldtrim]; exact List.drop_suffix _ ids

/-- Witness for C9 at 1001 concrete distinct ids (0..1000). -/
theorem trim_keeps_most_recent_500_witness :
    trimSeenIds ((List.range 1001).foldl setAdd []) = (List.range 1001).drop 501
    ∧ (trimSeenIds ((List.range 1001).foldl setAdd [])).length = 500 := by
  have h := trim_keeps_most_recent_500 (List.range 1001) (List.range 1001)
    (by simp [MAX_SEEN_IDS]) (List.nodup_range 1001) (by simp)
  exact ⟨h.2.2.2.1, h.2.2.2.2.1⟩

/-- Unfolding of `poll` on a non-first poll. -/
theorem poll_not_first (st : PollState) (posts : List Post) (fw : String → Bool)
    (hfp : st.isFirstPoll = false) :
    poll st posts fw =
      ({ seenPostIds := trimSeenIds (forwardLoop st.seenPostIds
           ((posts.filter (fun p => p.id ∉ st.seenPostIds)).reverse) fw).1,
         isFirstPoll := false },
       (forwardLoop st.seenPostIds
           ((posts.filter (fun p => p.id ∉ st.seenPostIds)).reverse) fw).2) := by
  unfold poll
  rw [if_neg (by rw [hfp]; exact Bool.false_ne_true)]

/-- C4: in the ID-set dedup, an id is added to the seen set only when its
forward succeeds; a failing forward leaves it unseen, so the same batch
forwards it on the next poll; replaying a batch with no new ids forwards
zero messages; a batch whose only new post is `p` (with a succeeding
forward) forwards exactly `p.id`. -/
theorem seen_marked_only_on_forward_success
    (st : PollState) (posts : List Post) (fw fw2 : String → Bool)
    (hfp : st.isFirstPoll = false) :
    (∀ p ∈ posts, p.id ∉ st.seenPostIds → fw p.id = false →
        p.id ∉ (poll st posts fw).1.seenPostIds
        ∧ (fw2 p.id = true → p.id ∈ (poll (poll st posts fw).1 posts fw2).2))
    ∧ ((∀ q ∈ posts, q.id ∈ st.seenPostIds) → (poll st posts fw).2 = [])
    ∧ (∀ p : Post, posts.filter (fun q => q.id ∉ st.seenPostIds) = [p] →
        fw p.id = true → (poll st posts fw).2 = [p.id]) := by
  have hpoll := poll_not_first st posts fw hfp
  refine ⟨?_, ?_, ?_⟩
  · intro p hp hnew hfail
    have hout : p.id ∉ (poll st posts fw).1.seenPostIds := by
      rw [hpoll]
      intro hmem
      exact forwardLoop_not_seen_of_fail p.id fw hfail _ _ hnew
        (mem_of_mem_trimSeenIds _ _ hmem)
    refine ⟨hout, ?_⟩
    intro hfw2
    have hpoll2 := poll_not_first (poll st posts fw).1 posts fw2 (by rw [hpoll])
    rw [hpoll2]
    apply forwardLoop_mem_forwards p fw2 hfw2
    rw [List.mem_reverse, List.mem_filter]
    exact ⟨hp, by simpa using hout⟩
  · intro hall
    rw [hpoll]
    have hfil : posts.filter (fun p => p.id ∉ st.seenPostIds) = [] := by
      apply List.filter_eq_nil_iff.mpr
      intro a ha
      simpa using hall a ha
    rw [hfil]
    rfl
  · intro p hfil hok
    rw [hpoll, hfil]
    simp [forwardLoop, hok]

/-- Witness for C4: seen set `{a}`, batch `[a, b]`; a failing forward of
`b` leaves `b` unseen and the next poll (succeeding) forwards it; a batch
of only seen ids forwards nothing; with a succeeding forward the batch
forwards exactly `b`. -/
theorem seen_marked_only_on_forward_success_witness :
    "b" ∉ (poll ⟨["a"], false⟩ [⟨"a"⟩, ⟨"b"⟩] (fun _ => false)).1.seenPostIds
    ∧ "b" ∈ (poll (poll ⟨["a"], false⟩ [⟨"a"⟩, ⟨"b"⟩] (fun _ => false)).1
        [⟨"a"⟩, ⟨"b"⟩] (fun _ => true)).2
    ∧ (poll ⟨["a"], false⟩ [⟨"a"⟩] (fun _ => false)).2 = []
    ∧ (poll ⟨["a"], false⟩ [⟨"a"⟩, ⟨"b"⟩] (fun _ => true)).2 = ["b"] := by
  have h1 := (seen_marked_only_on_forward_success ⟨["a"], false⟩
    [⟨"a"⟩, ⟨"b"⟩] (fun _ => false) (fun _ => true) rfl).1
    ⟨"b"⟩ (by simp) (by decide) rfl
  have h2 := (seen_marked_only_on_forward_success ⟨["a"], false⟩
    [⟨"a"⟩] (fun _ => false) (fun _ => true) rfl).2.1 (by decide)
  have h3 := (seen_marked_only_on_forward_success ⟨["a"], false⟩
    [⟨"a"⟩, ⟨"b"⟩] (fun _ => true) (fun _ => true) rfl).2.2
    ⟨"b"⟩ (by decide) rfl
  exact ⟨h1.1, h1.2 rfl, h2, h3⟩

/-- C5: the first poll adds every fetched id to the seen set and forwards
nothing; a subsequent poll forwards exactly the fetched posts whose ids
are unseen, in reversed fetch order (oldest first). -/
theorem first_poll_populates_then_forwards_unseen
    (st : PollState) (posts posts2 : List Post) (fw : String → Bool)
    (hfirst : st.isFirstPoll = true) (hfw : ∀ x, fw x = true) :
    (poll st posts fw).2 = []
    ∧ (∀ p ∈ posts, p.id ∈ (poll st posts fw).1.seenPostIds)
    ∧ (poll (poll st posts fw).1 posts2 fw).2
        = ((posts2.filter
            (fun p => p.id ∉ (poll st posts fw).1.seenPostIds)).reverse).map Post.id := by
  have hpoll : poll st posts fw =
      ({ seenPostIds := posts.foldl (fun s p => setAdd s p.id) st.seenPostIds,
         isFirstPoll := false }, []) := by
    unfold poll
    rw [if_pos hfirst]
  refine ⟨by rw [hpoll], ?_, ?_⟩
  · intro p hp
    rw [hpoll]
    exact mem_foldl_setAdd p posts st.seenPostIds hp
  · have hpoll2 := poll_not_first (poll st posts fw).1 posts2 fw (by rw [hpoll])
    rw [hpoll2]
    exact forwardLoop_all_ok fw hfw _ _

/-- Witness for C5: first fetch `[a, b]` forwards nothing; second fetch
`[a, b, c]` forwards exactly `c`. -/
theorem first_poll_populates_then_forwards_unseen_witness :
    (poll ⟨[], true⟩ [⟨"a"⟩, ⟨"b"⟩] (fun _ => true)).2 = []
    ∧ (poll (poll ⟨[], true⟩ [⟨"a"⟩, ⟨"b"⟩] (fun _ => true)).1
        [⟨"a"⟩, ⟨"b"⟩, ⟨"c"⟩] (fun _ => true)).2 = ["c"] := by
  have h := first_poll_populates_then_forwards_unseen ⟨[], true⟩
    [⟨"a"⟩, ⟨"b"⟩] [⟨"a"⟩, ⟨"b"⟩, ⟨"c"⟩] (fun _ => true) rfl (fun _ => rfl)
  exact ⟨h.1, h.2.2.trans (by decide)⟩

end Moltbook

namespace Polling

/-- Per-poller state held by `PollingManager` (`PollerState` in the
source): the `running` flag, whether `timer` is non-null (`timerSet`),
`lastRun`/`lastError`/`runCount`, plus a ghost counter `activeTimers` of
the `setInterval` timers created for this poller and not yet cleared,
used to state the at-most-one-timer invariant. -/
structure PollerState where
  running : Bool
  timerSet : Bool
  activeTimers : Nat
  lastRun : Option Nat
  lastError : Option String
  runCount : Nat
deriving DecidableEq, Repr

/-- State created by `PollingManager.register`: no timer, not running,
zero runs. -/
def registered : PollerState := ⟨false, false, 0, none, none, 0⟩

/-- `PollingManager.runPoller` for one handler invocation.  `outcome` is
`none` when the handler resolves and `some msg` when it rejects with
message `msg`; `now` is the clock reading for `lastRun`; `hasOnError`
records whether the config carries an `onError` callback.  Returns the
updated state and whether `onError` was invoked.  The function is total:
a handler failure is caught and never propagates to the scheduler. -/
def runPoller (s : PollerState) (outcome : Option String) (now : Nat)
    (hasOnError : Bool) : PollerState × Bool :=
  match outcome with
  | none =>
    ({ s with
        lastRun := some now
        runCount := s.runCount + 1
        lastError := none }, false)
  | some msg => ({ s with lastError := some msg }, hasOnError)

/-- `PollingManager.startPoller`: a no-op on a running poller; otherwise
set `running`, optionally run immediately, then create the interval
timer.  Returns the new state and whether an immediate run happened. -/
def startPoller (s : PollerState) (immediate : Bool) (outcome : Option String)
    (now : Nat) (hasOnError : Bool) : PollerState × Bool :=
  if s.running then (s, false)
  else
    let s1 := { s with running := true }
    let s2 := if immediate then (runPoller s1 outcome now hasOnError).1 else s1
    ({ s2 with timerSet := true, activeTimers := s2.activeTimers + 1 }, immediate)

/-- `PollingManager.stopPoller`: clear the interval timer if present and
reset `running`. -/
def stopPoller (s : PollerState) : PollerState :=
  let s1 := if s.timerSet then
      { s with timerSet := false, activeTimers := s.activeTimers - 1 }
    else s
  { s1 with running := false }

/-- Events a single poller can receive through its handle and its timer:
`start`, `stop`, and a `tick` (an interval firing or a manual
`trigger`). -/
inductive PollerEv where
  | start (immediate : Bool) (outcome : Option String) (now : Nat) (hasOnError : Bool)
  | stop
  | tick (outcome : Option String) (now : Nat) (hasOnError : Bool)

/-- Apply one event to a poller state. -/
def applyEv (s : PollerState) : PollerEv → PollerState
  | .start imm outcome now hoe => (startPoller s imm outcome now hoe).1
  | .stop => stopPoller s
  | .tick outcome now hoe => (runPoller s outcome now hoe).1

/-- State after a sequence of events on a freshly registered poller. -/
def runEvs (evs : List PollerEv) : PollerState :=
  evs.foldl applyEv registered

/-- Timer bookkeeping invariant: the number of live timers matches the
stored handle, and a handle exists exactly while the poller is running. -/
def TimerInv (s : PollerState) : Prop :=
  s.activeTimers = (if s.timerSet then 1 else 0) ∧ s.timerSet = s.running

/-- Every event preserves the timer bookkeeping invariant. -/
theorem timerInv_applyEv (s : PollerState) (e : PollerEv) (h : TimerInv s) :
    TimerInv (applyEv s e) := by
  obtain ⟨h1, h2⟩ := h
  cases e with
  | start imm outcome now hoe =>
    show TimerInv (startPoller s imm outcome now hoe).1
    unfold startPoller
    by_cases hr : s.running = true
    · rw [if_pos hr]
      exact ⟨h1, h2⟩
    · rw [if_neg hr]
      have hrf : s.running = false := by
        revert hr; cases s.running <;> simp
      have hts : s.timerSet = false := h2.trans hrf
      have h10 : s.activeTimers = 0 := by rw [h1, hts]; rfl
      cases imm with
      | false =>
        refine ⟨?_, rfl⟩
        show s.activeTimers + 1 = 1
        rw [h10]
      | true =>
        cases outcome with
        | none =>
          refine ⟨?_, rfl⟩
          show s.activeTimers + 1 = 1
          rw [h10]
        | some msg =>
          refine ⟨?_, rfl⟩
          show s.activeTimers + 1 = 1
          rw [h10]
  | stop =>
    show TimerInv (stopPoller s)
    unfold stopPoller
    by_cases hts : s.timerSet = true
    · rw [if_pos hts]
      refine ⟨?_, rfl⟩
      show s.activeTimers - 1 = 0
      rw [h1, hts]
      decide
    · rw [if_neg hts]
      have hts2 : s.timerSet = false := by
        revert hts; cases s.timerSet <;> simp
      exact ⟨h1, hts2⟩
  | tick outcome now hoe =>
    show TimerInv (runPoller s outcome now hoe).1
    cases outcome with
    | none => exact ⟨h1, h2⟩
    | some msg => exact ⟨h1, h2⟩

/-- The timer bookkeeping invariant holds after any event sequence on a
freshly registered poller. -/
theorem timerInv_runEvs (evs : List PollerEv) : TimerInv (runEvs evs) := by
  have key : ∀ (l : List PollerEv) (s : PollerState), TimerInv s →
      TimerInv (l.foldl applyEv s) := by
    intro l
    induction l with
    | nil => intro s hs; simpa using hs
    | cons e rest ih =>
      intro s hs
      simpa using ih (applyEv s e) (timerInv_applyEv s e hs)
  exact key evs registered ⟨rfl, rfl⟩

/-- C10: calling `start` on a poller that is already running is a no-op:
the state (including the timer handle and schedule) is unchanged and no
immediate run is triggered; consequently a poller reachable from
registration by any event sequence has at most one active interval
timer. -/
theorem start_on_running_poller_is_noop
    (s : PollerState) (immediate : Bool) (outcome : Option String)
    (now : Nat) (hasOnError : Bool) (hs : s.running = true)
    (evs : List PollerEv) :
    startPoller s immediate outcome now hasOnError = (s, false)
    ∧ (runEvs evs).activeTimers ≤ 1 := by
  constructor
  · unfold startPoller
    rw [if_pos hs]
  · have h := (timerInv_runEvs evs).1
    rw [h]
    by_cases hts : (runEvs evs).timerSet <;> simp [hts]

/-- Witness for C10: starting a started poller changes nothing, and a
start-start-tick-stop-start sequence never holds more than one timer. -/
theorem start_on_running_poller_is_noop_witness :
    startPoller ⟨true, true, 1, none, none, 3⟩ true none 7 true
      = (⟨true, true, 1, none, none, 3⟩, false)
    ∧ (runEvs [.start true none 0 false, .start false (some "x") 1 true,
        .tick none 2 false, .stop, .start false none 3 false]).activeTimers ≤ 1 := by
  have h := start_on_running_poller_is_noop ⟨true, true, 1, none, none, 3⟩
    true none 7 true rfl
    [.start true none 0 false, .start false (some "x") 1 true,
     .tick none 2 false, .stop, .start false none 3 false]
  exact h

/-- The whole `PollingManager`: an association list from poller name to
state, mirroring the `Map<string, PollerState>` in the source.
`managerRun name` applies `runPoller` to the poller called `name` and to
no other entry. -/
def managerRun (m : List (String × PollerState)) (name : String)
    (outcome : Option String) (now : Nat) (hasOnError : Bool) :
    List (String × PollerState) :=
  match m with
  | [] => []
  | e :: rest =>
    (if e.1 = name then (e.1, (runPoller e.2 outcome now hasOnError).1) else e)
      :: managerRun rest name outcome now hasOnError

/-- Lookup in the poller map (`this.pollers.get(name)`). -/
def findPoller (m : List (String × PollerState)) (name : String) :
    Option PollerState :=
  match m with
  | [] => none
  | e :: rest => if e.1 = name then some e.2 else findPoller rest name

/-- Running one poller leaves every other poller's state untouched. -/
theorem findPoller_managerRun_other (m : List (String × PollerState))
    (name other : String) (outcome : Option String) (now : Nat)
    (hasOnError : Bool) (hne : other ≠ name) :
    findPoller (managerRun m name outcome now hasOnError) other
      = findPoller m other := by
  induction m with
  | nil => rfl
  | cons e rest ih =>
    obtain ⟨k, v⟩ := e
    by_cases hk : k = name
    · subst hk
      have hok : ¬ (k = other) := fun h => hne h.symm
      simp [managerRun, findPoller, hok, ih]
    · by_cases hok : k = other
      · subst hok
        simp [managerRun, findPoller, hk]
      · simp [managerRun, findPoller, hk, hok, ih]

/-- Running a named poller applies `runPoller` to exactly that poller's
entry. -/
theorem findPoller_managerRun_self (m : List (String × PollerState))
    (name : String) (outcome : Option String) (now : Nat)
    (hasOnError : Bool) :
    findPoller (managerRun m name outcome now hasOnError) name
      = (findPoller m name).map (fun s => (runPoller s outcome now hasOnError).1) := by
  induction m with
  | nil => rfl
  | cons e rest ih =>
    obtain ⟨k, v⟩ := e
    by_cases hk : k = name
    · subst hk
      simp [managerRun, findPoller]
    · simp [managerRun, findPoller, hk, ih]

/-- C8: a successful handler invocation updates `lastRun`, increments
`runCount` and clears `lastError`; a failing one records the error
message in `lastError`, reports to the optional `onError` callback, and
leaves `running`, the timer and `runCount` untouched (and `runPoller` is
total, so the failure never propagates); running one poller leaves every
other poller untouched, and the other poller's next successful tick
still increments its `runCount`. -/
theorem poller_error_isolated
    (s : PollerState) (now now2 : Nat) (hasOnError : Bool) (msg : String)
    (outcome : Option String) (m : List (String × PollerState))
    (name other : String) (hne : other ≠ name) :
    runPoller s none now hasOnError
      = ({ s with
            lastRun := some now
            runCount := s.runCount + 1
            lastError := none }, false)
    ∧ runPoller s (some msg) now hasOnError
      = ({ s with lastError := some msg }, hasOnError)
    ∧ (runPoller s outcome now hasOnError).1.running = s.running
    ∧ (runPoller s outcome now hasOnError).1.timerSet = s.timerSet
    ∧ (runPoller s (some msg) now hasOnError).1.runCount = s.runCount
    ∧ findPoller (managerRun m name outcome now hasOnError) other
        = findPoller m other
    ∧ findPoller
        (managerRun (managerRun m name outcome now hasOnError) other none now2 hasOnError)
        other
        = (findPoller m other).map
            (fun t => ({ t with
                lastRun := some now2
                runCount := t.runCount + 1
                lastError := none } : PollerState)) := by
  refine ⟨rfl, rfl, ?_, ?_, rfl, ?_, ?_⟩
  · cases outcome <;> rfl
  · cases outcome <;> rfl
  · exact findPoller_managerRun_other m name other outcome now hasOnError hne
  · rw [findPoller_managerRun_self,
      findPoller_managerRun_other m name other outcome now hasOnError hne]
    rfl

/-- Witness for C8 on two concrete pollers `a` (failing) and `b`. -/
theorem poller_error_isolated_witness :
    runPoller ⟨true, true, 1, none, none, 4⟩ (some "boom") 9 true
      = (⟨true, true, 1, none, some "boom", 4⟩, true)
    ∧ findPoller
        (managerRun (managerRun [("a", registered), ("b", registered)]
          "a" (some "boom") 1 true) "b" none 2 true) "b"
        = some ⟨false, false, 0, some 2, none, 1⟩ := by
  have h := poller_error_isolated ⟨true, true, 1, none, none, 4⟩ 9 2 true "boom"
    (some "boom") [("a", registered), ("b", registered)] "a" "b" (by decide)
  exact ⟨h.2.1, h.2.2.2.2.2.2⟩

end Polling

namespace Session

/-- The `sessionState` field of `BitwardenSessionManager`. -/
inductive VaultState where
  | logged_out
  | locked
  | unlocked
deriving DecidableEq, Repr

/-- State of a `BitwardenSessionManager`: the session token (`null`/
string — the token parsed from `bw unlock` is a non-empty match of
`[^"]+`, so JS truthiness of `this.session` coincides with non-null),
the tri-valued `sessionState`, and whether the periodic sync timer is
set. -/
structure SessionState where
  session : Option String
  sessionState : VaultState
  syncTimer : Bool
deriving DecidableEq, Repr

/-- Manager state at construction, before `initialize()`. -/
def initialState : SessionState := ⟨none, .logged_out, false⟩

/-- `BitwardenSessionManager.initialize`, with the outcome of each CLI
call passed explicitly: `loginOk` for `cli.login`, `unlockRes` for
`cli.unlock` (`some token` on success, `none` when it throws), `syncOk`
for the initial `cli.sync`.  Errors are not caught, so the function
returns the state at the point of the throw together with a flag that is
`true` iff `initialize` completed. -/
def initializeRun (s : SessionState) (loginOk : Bool)
    (unlockRes : Option String) (syncOk : Bool) : SessionState × Bool :=
  if loginOk = false then (s, false)
  else
    let s1 := { s with sessionState := .locked }
    match unlockRes with
    | none => (s1, false)
    | some tok =>
      let s2 := { s1 with session := some tok, sessionState := .unlocked }
      if syncOk = false then (s2, false)
      else ({ s2 with syncTimer := true }, true)

/-- `BitwardenSessionManager.shutdown`, with the outcomes of `cli.lock`
and `cli.logout` passed explicitly.  Both calls have their errors
swallowed, so `shutdown` always completes; `this.session = null` runs
unconditionally at the end. -/
def shutdownRun (s : SessionState) (lockOk logoutOk : Bool) : SessionState :=
  let s1 := { s with syncTimer := false }
  let s2 :=
    if s1.session ≠ none ∧ s1.sessionState = .unlocked then
      (if lockOk then { s1 with sessionState := .locked } else s1)
    else s1
  let s3 :=
    if s2.sessionState ≠ .logged_out then
      (if logoutOk then { s2 with sessionState := .logged_out } else s2)
    else s2
  { s3 with session := none }

/-- `BitwardenSessionManager.getSession`: throw unless a token exists and
the state is `unlocked`; otherwise return the token. -/
def getSession (s : SessionState) : Except String String :=
  match s.session with
  | none => .error "Bitwarden vault is not unlocked"
  | some tok =>
    if s.sessionState ≠ .unlocked then .error "Bitwarden vault is not unlocked"
    else .ok tok

/-- After any `shutdown()`, the token is null: `this.session = null` is
the unconditional last step. -/
theorem shutdownRun_session (s : SessionState) (lockOk logoutOk : Bool) :
    (shutdownRun s lockOk logoutOk).session = none := by
  unfold shutdownRun
  rfl

/-- C6 (amended): at the observable points of the lifecycle — after
construction, after `initialize()` returns or throws, and after
`shutdown()` returns — the session token is non-null iff the state is
`unlocked`, provided the shutdown's `lock` and `logout` CLI calls do not
both fail (when both fail, the state stays `unlocked` while the token is
nulled; see the counterexample). -/
theorem token_iff_unlocked_lifecycle
    (loginOk syncOk lockOk logoutOk : Bool) (unlockRes : Option String)
    (hgood : lockOk = true ∨ logoutOk = true) :
    (initialState.session ≠ none ↔ initialState.sessionState = .unlocked)
    ∧ ((initializeRun initialState loginOk unlockRes syncOk).1.session ≠ none
        ↔ (initializeRun initialState loginOk unlockRes syncOk).1.sessionState = .unlocked)
    ∧ ((shutdownRun (initializeRun initialState loginOk unlockRes syncOk).1
          lockOk logoutOk).session ≠ none
        ↔ (shutdownRun (initializeRun initialState loginOk unlockRes syncOk).1
          lockOk logoutOk).sessionState = .unlocked) := by
  refine ⟨by simp [initialState], ?_, ?_⟩
  · cases loginOk <;> rcases unlockRes with _ | tok <;> cases syncOk <;>
      simp [initializeRun, initialState]
  · cases lockOk with
    | true =>
      cases loginOk <;> rcases unlockRes with _ | tok <;> cases syncOk <;>
        cases logoutOk <;>
          simp [initializeRun, shutdownRun, initialState]
    | false =>
      have hg : logoutOk = true := by
        rcases hgood with h | h
        · cases h
        · exact h
      subst hg
      cases loginOk <;> rcases unlockRes with _ | tok <;> cases syncOk <;>
        simp [initializeRun, shutdownRun, initialState]

/-- Counterexample to C6 as stated: run `initialize()` successfully, then
a `shutdown()` in which both `cli.lock` and `cli.logout` throw.  The
resulting (observable) state has `sessionState = unlocked` with a null
token, so "token non-null iff state unlocked" fails. -/
theorem token_invariant_fails_when_lock_and_logout_fail :
    (shutdownRun (initializeRun initialState true (some "tok") true).1
      false false).sessionState = .unlocked
    ∧ (shutdownRun (initializeRun initialState true (some "tok") true).1
      false false).session = none := by
  constructor <;> rfl

/-- C7 (amended): `getSession()` throws the "Bitwarden vault is not
unlocked" error whenever the state is not `unlocked` — in particular on
the pre-`initialize()` state and on every post-`shutdown()` state — and
returns the stored token exactly when the state is `unlocked` AND the
token is non-null (after a shutdown in which both lock and logout
failed, the state remains `unlocked` with a null token and `getSession`
still throws; see the counterexample). -/
theorem getSession_guard
    (s s2 s3 : SessionState) (t : String) (lockOk logoutOk : Bool)
    (hnu : s.sessionState ≠ .unlocked)
    (hok : s2.session = some t) (hst : s2.sessionState = .unlocked) :
    getSession s = .error "Bitwarden vault is not unlocked"
    ∧ getSession initialState = .error "Bitwarden vault is not unlocked"
    ∧ getSession (shutdownRun s3 lockOk logoutOk)
        = .error "Bitwarden vault is not unlocked"
    ∧ getSession s2 = .ok t
    ∧ ((∃ u, getSession s3 = .ok u)
        ↔ (s3.sessionState = .unlocked ∧ s3.session ≠ none)) := by
  refine ⟨?_, rfl, ?_, ?_, ?_⟩
  · rcases hs : s.session with _ | tok
    · simp [getSession, hs]
    · simp [getSession, hs, hnu]
  · unfold getSession
    rw [shutdownRun_session]
  · unfold getSession
    rw [hok]
    simp [hst]
  · constructor
    · rintro ⟨u, hu⟩
      rcases hs : s3.session with _ | tok
      · simp [getSession, hs] at hu
      · by_cases hst3 : s3.sessionState = VaultState.unlocked
        · exact ⟨hst3, by simp [hs]⟩
        · simp [getSession, hs, hst3] at hu
    · rintro ⟨hst3, hsn⟩
      rcases hs : s3.session with _ | tok
      · exact absurd hs hsn
      · exact ⟨tok, by simp [getSession, hs, hst3]⟩

/-- Witness for C7 at concrete states: a locked state with a token, the
fresh state, a post-shutdown state, and an unlocked state. -/
theorem getSession_guard_witness :
    getSession ⟨some "t", .locked, false⟩
        = .error "Bitwarden vault is not unlocked"
    ∧ getSession initialState = .error "Bitwarden vault is not unlocked"
    ∧ getSession (shutdownRun ⟨some "u", .unlocked, true⟩ true true)
        = .error "Bitwarden vault is not unlocked"
    ∧ getSession ⟨some "t", .unlocked, true⟩ = .ok "t"
    ∧ ((∃ u, getSession ⟨some "u", .unlocked, true⟩ = .ok u)
        ↔ ((⟨some "u", .unlocked, true⟩ : SessionState).sessionState = .unlocked
            ∧ (⟨some "u", .unlocked, true⟩ : SessionState).session ≠ none)) := by
  exact getSession_guard ⟨some "t", .locked, false⟩ ⟨some "t", .unlocked, true⟩
    ⟨some "u", .unlocked, true⟩ "t" true true (by decide) rfl rfl

/-- Counterexample to C7 as stated: in the reachable state after a
successful `initialize()` followed by a `shutdown()` whose lock and
logout both fail, the state is `unlocked`, yet `getSession()` throws
instead of returning a token. -/
theorem getSession_rejects_unlocked_with_null_token :
    (shutdownRun (initializeRun initialState true (some "tok") true).1
      false false).sessionState = .unlocked
    ∧ getSession (shutdownRun (initializeRun initialState true (some "tok") true).1
      false false) = .error "Bitwarden vault is not unlocked" := by
  constructor <;> rfl

/-- Witness for C6 at a concrete lifecycle (lock fails, logout
succeeds). -/
theorem token_iff_unlocked_lifecycle_witness :
    ((initializeRun initialState true (some "tok") true).1.session ≠ none
      ↔ (initializeRun initialState true (some "tok") true).1.sessionState = .unlocked)
    ∧ ((shutdownRun (initializeRun initialState true (some "tok") true).1
          false true).session ≠ none
      ↔ (shutdownRun (initializeRun initialState true (some "tok") true).1
          false true).sessionState = .unlocked) := by
  have h := token_iff_unlocked_lifecycle true true false true (some "tok") (Or.inr rfl)
  exact ⟨h.2.1, h.2.2⟩

end Session

namespace Supervisor

/-- State of a `SubprocessManager` relevant to restart scheduling:
whether `this.process` is non-null, the `restartAttempts` counter, and
the `shuttingDown` flag. -/
structure SupervisorState where
  procRunning : Bool
  restartAttempts : Nat
  shuttingDown : Bool
deriving DecidableEq, Repr

/-- `this.maxRestarts = 5`. -/
def maxRestarts : Nat := 5

/-- `this.restartDelay = 1000` (milliseconds). -/
def restartDelay : Nat := 1000

/-- State right after the owner's initial `start()` succeeded. -/
def initial : SupervisorState := ⟨true, 0, false⟩

/-- The `exit` handler installed by `start()`: null the process; if not
shutting down and below the restart cap, increment the counter and
schedule a restart after `restartDelay * restartAttempts` ms; else if the
cap is reached, emit `maxRestartsReached`.  Returns the new state, the
scheduled delay (if any), and whether the terminal signal was emitted. -/
def onExitEvent (s : SupervisorState) : SupervisorState × Option Nat × Bool :=
  let s0 := { s with procRunning := false }
  if s0.shuttingDown = false ∧ s0.restartAttempts < maxRestarts then
    let s1 := { s0 with restartAttempts := s0.restartAttempts + 1 }
    (s1, some (restartDelay * s1.restartAttempts), false)
  else if s0.restartAttempts ≥ maxRestarts then
    (s0, none, true)
  else
    (s0, none, false)

/-- The `setTimeout` callback of a scheduled restart: if not shutting
down, call `start()` (which clears `shuttingDown` and spawns; it throws
when a process is already running, leaving the state unchanged). -/
def onRestartTimer (s : SupervisorState) : SupervisorState :=
  if s.shuttingDown = false then
    (if s.procRunning then s
     else { s with shuttingDown := false, procRunning := true })
  else s

/-- `SubprocessManager.stop()`: return immediately when no process is
running (without touching `shuttingDown`); otherwise set `shuttingDown`,
kill the process, and let its `exit` event run the exit handler. -/
def stopCall (s : SupervisorState) : SupervisorState :=
  if s.procRunning = false then s
  else (onExitEvent { s with shuttingDown := true }).1

/-- A crash loop with budget `n`: the process exits unexpectedly, and
whenever a restart is scheduled, the timer fires and the restarted
process immediately crashes again.  Collects the scheduled delays and
whether `maxRestartsReached` was emitted. -/
def crashRun : Nat → SupervisorState → SupervisorState × List Nat × Bool
  | 0, s => (s, [], false)
  | n + 1, s =>
    match onExitEvent s with
    | (s1, some d, _) =>
      let r := crashRun n (onRestartTimer s1)
      (r.1, d :: r.2.1, r.2.2)
    | (s1, none, term) => (s1, [], term)

/-- The exit handler never changes the `shuttingDown` flag. -/
theorem onExitEvent_shuttingDown (s : SupervisorState) :
    (onExitEvent s).1.shuttingDown = s.shuttingDown := by
  unfold onExitEvent
  dsimp only
  split
  · rfl
  · split <;> rfl

/-- C2 (amended): a process that always crashes immediately is restarted
exactly 5 times, with strictly increasing delays `n * 1000` ms for
`n = 1..5`; then the terminal `maxRestartsReached` signal is emitted and
no further restart is scheduled (a seventh exit changes nothing).
`stop()` called while the process is running sets `shuttingDown`, and
once `shuttingDown` is set, no exit schedules a restart, no pending
timer starts the process, and the flag survives further exits and
stops. -/
theorem crash_loop_restart_bound
    (s s2 : SupervisorState) (hrun : s.procRunning = true)
    (hsd : s2.shuttingDown = true) :
    (crashRun 6 initial).2.1 = [1000, 2000, 3000, 4000, 5000]
    ∧ (crashRun 6 initial).2.2 = true
    ∧ List.Pairwise (fun a b => a < b) (crashRun 6 initial).2.1
    ∧ (onExitEvent (crashRun 6 initial).1).2.1 = none
    ∧ crashRun 7 initial = crashRun 6 initial
    ∧ (stopCall s).shuttingDown = true
    ∧ (onExitEvent s2).2.1 = none
    ∧ (onExitEvent s2).1.shuttingDown = true
    ∧ onRestartTimer s2 = s2
    ∧ (stopCall s2).shuttingDown = true := by
  refine ⟨by decide, by decide, by decide, by decide, by decide, ?_, ?_, ?_, ?_, ?_⟩
  · unfold stopCall
    rw [if_neg (fun h => Bool.noConfusion (hrun.symm.trans h))]
    rw [onExitEvent_shuttingDown]
  · unfold onExitEvent
    rw [if_neg (fun hand => Bool.noConfusion (hsd.symm.trans hand.1))]
    split <;> rfl
  · rw [onExitEvent_shuttingDown]
    exact hsd
  · unfold onRestartTimer
    rw [if_neg (fun h => Bool.noConfusion (hsd.symm.trans h))]
  · unfold stopCall
    split
    · exact hsd
    · rw [onExitEvent_shuttingDown]

/-- Witness for C2 at a running supervisor and a shutting-down one. -/
theorem crash_loop_restart_bound_witness :
    (crashRun 6 initial).2.1 = [1000, 2000, 3000, 4000, 5000]
    ∧ (crashRun 6 initial).2.2 = true
    ∧ (stopCall ⟨true, 3, false⟩).shuttingDown = true
    ∧ (onExitEvent ⟨false, 2, true⟩).2.1 = none
    ∧ onRestartTimer ⟨false, 2, true⟩ = ⟨false, 2, true⟩ := by
  have h := crash_loop_restart_bound ⟨true, 3, false⟩ ⟨false, 2, true⟩ rfl rfl
  exact ⟨h.1, h.2.1, h.2.2.2.2.2.1, h.2.2.2.2.2.2.1, h.2.2.2.2.2.2.2.2.1⟩

/-- Counterexample to C2 as stated: after the first crash (restart
pending), `stop()` returns immediately without setting `shuttingDown`,
and the pending restart timer then starts the process again — so a
restart is scheduled and executed after `stop()` was called. -/
theorem stop_during_backoff_does_not_prevent_restart :
    ((onExitEvent initial).1.procRunning = false)
    ∧ stopCall (onExitEvent initial).1 = (onExitEvent initial).1
    ∧ (stopCall (onExitEvent initial).1).shuttingDown = false
    ∧ (onRestartTimer (stopCall (onExitEvent initial).1)).procRunning = true := by
  refine ⟨rfl, rfl, rfl, rfl⟩

end Supervisor

namespace BwCli

/-- One queued CLI invocation: how long the `execFile` call takes and
whether it resolves (`ok = true`) or rejects. -/
structure CliTask where
  dur : Nat
  ok : Bool
deriving DecidableEq, Repr

/-- A settled JS promise, abstracted to its settlement time and whether
it was fulfilled. -/
structure SettledPromise where
  time : Nat
  ok : Bool
deriving DecidableEq, Repr

/-- `p.then(fn, fn)` where `fn` runs task `t`: because the same handler
is attached for fulfillment and rejection, `fn` starts when `p`
settles regardless of `p`'s outcome, and the resulting promise settles
`t.dur` later with `t`'s outcome. -/
def thenBoth (p : SettledPromise) (t : CliTask) : SettledPromise :=
  ⟨p.time + t.dur, t.ok⟩

/-- `result.catch(() => \x7b\x7d)`: settles with `result`, always
fulfilled. -/
def catchNoop (p : SettledPromise) : SettledPromise :=
  ⟨p.time, true⟩

/-- `BitwardenCli.serialize`: `result = queue.then(fn, fn)`;
`queue = result.catch(noop)`.  Returns `(result, new queue)`. -/
def serializeStep (queue : SettledPromise) (t : CliTask) :
    SettledPromise × SettledPromise :=
  let result := thenBoth queue t
  (result, catchNoop result)

/-- Submitting a list of tasks through `exec`/`serialize` in order,
starting from queue promise `q`.  Yields the execution interval
`[start, end)` of each task, in submission order: a task starts when the
queue promise it was chained on settles. -/
def execRun (q : SettledPromise) : List CliTask → List (Nat × Nat)
  | [] => []
  | t :: ts =>
    let r := serializeStep q t
    (q.time, r.1.time) :: execRun r.2 ts

/-- The queue field starts as `Promise.resolve()`: settled at time 0,
fulfilled. -/
def initialQueue : SettledPromise := ⟨0, true⟩

/-- Intervals of a task list submitted against a fresh `BitwardenCli`. -/
def execSchedule (ts : List CliTask) : List (Nat × Nat) :=
  execRun initialQueue ts

/-- Start time of the i-th submitted task. -/
def startAt (ts : List CliTask) (i : Nat) : Nat :=
  ((execSchedule ts).getD i (0, 0)).1

/-- End time of the i-th submitted task. -/
def endAt (ts : List CliTask) (i : Nat) : Nat :=
  ((execSchedule ts).getD i (0, 0)).2

/-- The i-th task is executing at instant `t`. -/
def InFlight (ts : List CliTask) (i t : Nat) : Prop :=
  i < ts.length ∧ startAt ts i ≤ t ∧ t < endAt ts i

/-- Total duration of the first `k` submitted tasks. -/
def prefDur (ts : List CliTask) (k : Nat) : Nat :=
  ((ts.take k).map CliTask.dur).sum

/-- Unfolding of `execRun` on a cons: the head runs over
`[q.time, q.time + dur)` and the new queue promise is fulfilled at the
head's end time whatever its outcome (the `catch` swallows failures). -/
theorem execRun_cons (q : SettledPromise) (t : CliTask) (ts : List CliTask) :
    execRun q (t :: ts)
      = (q.time, q.time + t.dur) :: execRun ⟨q.time + t.dur, true⟩ ts := rfl

/-- Every submitted task gets an interval. -/
theorem execRun_length (ts : List CliTask) :
    ∀ q : SettledPromise, (execRun q ts).length = ts.length := by
  induction ts with
  | nil => intro q; rfl
  | cons t rest ih =>
    intro q
    rw [execRun_cons, List.length_cons, ih, List.length_cons]

/-- The i-th interval is `[q.time + prefDur i, q.time + prefDur (i+1))`. -/
theorem execRun_getD (ts : List CliTask) :
    ∀ (q : SettledPromise) (k : Nat), k < ts.length →
      (execRun q ts).getD k (0, 0)
        = (q.time + prefDur ts k, q.time + prefDur ts (k + 1)) := by
  induction ts with
  | nil =>
    intro q k hk
    exact absurd hk (by simp)
  | cons t rest ih =>
    intro q k hk
    rw [execRun_cons]
    cases k with
    | zero =>
      simp [prefDur]
    | succ k =>
      have hk2 : k < rest.length := by
        simpa using Nat.lt_of_succ_lt_succ hk
      have h := ih ⟨q.time + t.dur, true⟩ k hk2
      rw [List.getD_cons_succ, h]
      have h1 : prefDur (t :: rest) (k + 1) = t.dur + prefDur rest k := by
        simp [prefDur]
      have h2 : prefDur (t :: rest) (k + 2) = t.dur + prefDur rest (k + 1) := by
        simp [prefDur]
      rw [h1, h2]
      simp only [Prod.mk.injEq]
      constructor <;> (dsimp only; omega)

/-- `prefDur` grows by at most one task at a time. -/
theorem prefDur_le_succ (ts : List CliTask) :
    ∀ k : Nat, prefDur ts k ≤ prefDur ts (k + 1) := by
  induction ts with
  | nil => intro k; simp [prefDur]
  | cons t rest ih =>
    intro k
    cases k with
    | zero => simp [prefDur]
    | succ k =>
      have h1 : prefDur (t :: rest) (k + 1) = t.dur + prefDur rest k := by
        simp [prefDur]
      have h2 : prefDur (t :: rest) (k + 2) = t.dur + prefDur rest (k + 1) := by
        simp [prefDur]
      rw [h1, h2]
      exact Nat.add_le_add_left (ih k) t.dur

/-- `prefDur` is monotone. -/
theorem prefDur_mono (ts : List CliTask) {a b : Nat} (h : a ≤ b) :
    prefDur ts a ≤ prefDur ts b := by
  induction b with
  | zero =>
    rw [Nat.le_zero.mp h]
  | succ b ih =>
    rcases Nat.lt_or_ge a (b + 1) with h2 | h2
    · exact Nat.le_trans (ih (Nat.lt_succ_iff.mp h2)) (prefDur_le_succ ts b)
    · rw [Nat.le_antisymm h h2]

/-- Start of the i-th task against a fresh queue. -/
theorem startAt_eq (ts : List CliTask) (i : Nat) (hi : i < ts.length) :
    startAt ts i = prefDur ts i := by
  unfold startAt execSchedule
  rw [execRun_getD ts initialQueue i hi]
  simp [initialQueue]

/-- End of the i-th task against a fresh queue. -/
theorem endAt_eq (ts : List CliTask) (i : Nat) (hi : i < ts.length) :
    endAt ts i = prefDur ts (i + 1) := by
  unfold endAt execSchedule
  rw [execRun_getD ts initialQueue i hi]
  simp [initialQueue]

/-- An earlier task ends no later than a later task starts. -/
theorem endAt_le_startAt (ts : List CliTask) (i j : Nat)
    (hij : i < j) (hj : j < ts.length) :
    endAt ts i ≤ startAt ts j := by
  rw [endAt_eq ts i (Nat.lt_trans hij hj), startAt_eq ts j hj]
  exact prefDur_mono ts hij

/-- Two distinct tasks are never in flight at the same instant. -/
theorem inFlight_unique (ts : List CliTask) (i j t : Nat)
    (hi : InFlight ts i t) (hj : InFlight ts j t) : i = j := by
  obtain ⟨hi1, hi2, hi3⟩ := hi
  obtain ⟨hj1, hj2, hj3⟩ := hj
  rcases Nat.lt_trichotomy i j with h | h | h
  · have := endAt_le_startAt ts i j h hj1
    omega
  · exact h
  · have := endAt_le_startAt ts j i h hi1
    omega

/-- The schedule depends only on the durations, not the outcomes. -/
theorem execRun_eq_of_dur :
    ∀ (ts ts2 : List CliTask) (q : SettledPromise),
      ts.map CliTask.dur = ts2.map CliTask.dur →
      execRun q ts = execRun q ts2 := by
  intro ts
  induction ts with
  | nil =>
    intro ts2 q h
    cases ts2 with
    | nil => rfl
    | cons t2 rest2 => exact absurd h (by simp)
  | cons t rest ih =>
    intro ts2 q h
    cases ts2 with
    | nil => exact absurd h (by simp)
    | cons t2 rest2 =>
      simp only [List.map_cons, List.cons.injEq] at h
      rw [execRun_cons, execRun_cons, h.1, ih rest2 _ h.2]

/-- C1: for every submission sequence through `BitwardenCli.exec`, every
call gets executed; at most one invocation of the underlying CLI is in
flight at any instant; invocations begin in submission (FIFO) order; and
the schedule is a function of the durations alone, so a failure at any
position neither delays nor cancels the later calls (both handlers of
`queue.then(fn, fn)` run `fn`, and the `catch` resets the queue promise
to fulfilled at the same instant). -/
theorem cli_queue_serializes
    (ts ts2 : List CliTask) (i j t : Nat)
    (hdur : ts.map CliTask.dur = ts2.map CliTask.dur) :
    (execSchedule ts).length = ts.length
    ∧ (InFlight ts i t → InFlight ts j t → i = j)
    ∧ (i ≤ j → j < ts.length → startAt ts i ≤ startAt ts j)
    ∧ (i < j → j < ts.length → endAt ts i ≤ startAt ts j)
    ∧ execSchedule ts = execSchedule ts2 := by
  refine ⟨execRun_length ts initialQueue, inFlight_unique ts i j t, ?_, ?_,
    execRun_eq_of_dur ts ts2 initialQueue hdur⟩
  · intro hij hj
    rw [startAt_eq ts i (Nat.lt_of_le_of_lt hij hj), startAt_eq ts j hj]
    exact prefDur_mono ts hij
  · exact endAt_le_startAt ts i j

/-- Witness for C1: two tasks of durations 2 and 3, the first failing;
the schedule equals that of two fulfilled tasks with the same durations,
the first ends before the second starts, and both calls execute. -/
theorem cli_queue_serializes_witness :
    (execSchedule [⟨2, false⟩, ⟨3, true⟩]).length = 2
    ∧ startAt [⟨2, false⟩, ⟨3, true⟩] 0 ≤ startAt [⟨2, false⟩, ⟨3, true⟩] 1
    ∧ endAt [⟨2, false⟩, ⟨3, true⟩] 0 ≤ startAt [⟨2, false⟩, ⟨3, true⟩] 1
    ∧ execSchedule [⟨2, false⟩, ⟨3, true⟩] = execSchedule [⟨2, true⟩, ⟨3, true⟩] := by
  have h := cli_queue_serializes [⟨2, false⟩, ⟨3, true⟩] [⟨2, true⟩, ⟨3, true⟩]
    0 1 0 (by decide)
  exact ⟨h.1, h.2.2.1 (by decide) (by decide), h.2.2.2.1 (by decide) (by decide),
    h.2.2.2.2⟩

end BwCli

namespace Telegram

/-- A Telegram message; `id`, `date` and `text` are the fields read by
`TelegramMessageState` and the dialog-processing loop. -/
structure TelegramMessage where
  id : Nat
  date : String
  text : String
deriving DecidableEq, Repr

/-- JS `ToInt32`: wrap an integer into `[-2^31, 2^31)`. -/
def toInt32 (n : Int) : Int := ((n + 2 ^ 31) % 2 ^ 32) - 2 ^ 31

/-- `TelegramMessageState.hashText`: the JS loop
`hash = (hash << 5) - hash + charCodeAt(i); hash = hash & hash`.
`hash` is an int32 after each iteration; `<< 5` wraps to int32 (a 32-fold
multiplication mod 2^32), the subtraction and code-unit addition are
exact, and `& hash` coerces back to int32.  The source renders the final
int32 in hex (`toString(16)`), which is injective on int32 values, so
the fingerprint is kept as the `Int` itself.  (`String.data` yields
Unicode scalar values, which agree with UTF-16 code units for the
codepoints below `0x10000`.) -/
def hashText (s : String) : Int :=
  s.data.foldl (fun hash c => toInt32 (toInt32 (hash * 32) - hash + c.toNat)) 0

/-- The per-dialog cursor stored by `TelegramMessageState.markSeen`. -/
structure MessageState where
  id : Nat
  date : String
  textHash : Int
deriving DecidableEq, Repr

/-- `TelegramMessageState.markSeen` snapshot of a message. -/
def mkState (m : TelegramMessage) : MessageState :=
  ⟨m.id, m.date, hashText m.text⟩

/-- `TelegramMessageState.isNewMessage`: no cursor means new; a larger id
means new; an equal id is new iff the fingerprint changed; a smaller id
is never new. -/
def isNewMessage (st : Option MessageState) (m : TelegramMessage) : Bool :=
  match st with
  | none => true
  | some existing =>
    if m.id > existing.id then true
    else if m.id = existing.id then decide (hashText m.text ≠ existing.textHash)
    else false

instance : IsTotal TelegramMessage (fun a b => a.id ≤ b.id) :=
  ⟨fun a b => Nat.le_total a.id b.id⟩

instance : IsTrans TelegramMessage (fun a b => a.id ≤ b.id) :=
  ⟨fun _ _ _ => Nat.le_trans⟩

/-- `messages.sort((a, b) => a.id - b.id)`: a stable ascending sort by
id, modelled by insertion sort (stable, and observably equal to any
stable sort under this comparator). -/
def sortById (msgs : List TelegramMessage) : List TelegramMessage :=
  msgs.insertionSort (fun a b => a.id ≤ b.id)

/-- The message loop of `TelegramPollingModule.processDialog` over the
sorted batch: skip any message with `id ≤ lastSeenId` (the cursor id read
once before the loop); otherwise forward iff `isNewMessage` against the
current cursor, and on forwarding advance the cursor with `markSeen`.
Forwarding is taken as succeeding (the claim concerns which messages are
forwarded, not transport failures).  Returns the final cursor and the
forwarded messages in loop order. -/
def processLoop (lastSeenId : Option Nat) (cur : Option MessageState) :
    List TelegramMessage → Option MessageState × List TelegramMessage
  | [] => (cur, [])
  | m :: rest =>
    if (match lastSeenId with
        | some l => decide (m.id ≤ l)
        | none => false) then
      processLoop lastSeenId cur rest
    else if isNewMessage cur m then
      let r := processLoop lastSeenId (some (mkState m)) rest
      (r.1, m :: r.2)
    else
      processLoop lastSeenId cur rest

/-- `TelegramPollingModule.processDialog` for one dialog: read the
cursor, sort the fetched batch ascending by id, and run the loop. -/
def processDialog (st : Option MessageState) (msgs : List TelegramMessage) :
    Option MessageState × List TelegramMessage :=
  processLoop (st.map MessageState.id) st (sortById msgs)

/-- Loop characterization: on a strictly-ascending batch in which every
message is either at/below the cursor id or above the current state's id,
the forwarded messages are exactly those with id above the cursor. -/
theorem processLoop_spec (L : Nat) :
    ∀ (l : List TelegramMessage) (c : MessageState),
      L ≤ c.id →
      l.Pairwise (fun a b => a.id < b.id) →
      (∀ m ∈ l, m.id ≤ L ∨ c.id < m.id) →
      (processLoop (some L) (some c) l).2
        = l.filter (fun m => decide (L < m.id)) := by
  intro l
  induction l with
  | nil => intro c h1 h2 h3; rfl
  | cons m rest ih =>
    intro c hLc hpw hinv
    by_cases hm : m.id ≤ L
    · have hcond : (match some L with
          | some l => decide (m.id ≤ l)
          | none => false) = true := by
        simpa using hm
      have hfil : (decide (L < m.id)) = false := by
        simpa using Nat.not_lt.mpr hm
      unfold processLoop
      rw [if_pos hcond, List.filter_cons_of_neg (by simpa using hfil)]
      exact ih c hLc hpw.of_cons (fun x hx => hinv x (List.mem_cons_of_mem m hx))
    · have hLm : L < m.id := Nat.not_le.mp hm
      have hcm : c.id < m.id := (hinv m (List.mem_cons_self m rest)).resolve_left hm
      have hcond : (match some L with
          | some l => decide (m.id ≤ l)
          | none => false) = false := by
        simpa using hm
      have hnew : isNewMessage (some c) m = true := by
        simp [isNewMessage, hcm]
      unfold processLoop
      rw [if_neg (by rw [hcond]; exact Bool.false_ne_true), if_pos hnew]
      dsimp only
      rw [List.filter_cons_of_pos (by simpa using hLm)]
      have hrec := ih (mkState m) (Nat.le_of_lt hLm) hpw.of_cons
        (fun x hx => Or.inr ((List.pairwise_cons.mp hpw).1 x hx))
      rw [hrec]

/-- The sorted batch is strictly ascending when the batch ids are
distinct. -/
theorem sortById_pairwise (msgs : List TelegramMessage)
    (hnd : (msgs.map TelegramMessage.id).Nodup) :
    (sortById msgs).Pairwise (fun a b => a.id < b.id) := by
  have h1 : (sortById msgs).Pairwise (fun a b => a.id ≤ b.id) :=
    List.sorted_insertionSort _ msgs
  have h2 : ((sortById msgs).map TelegramMessage.id).Nodup := by
    have hp := (List.perm_insertionSort
      (fun a b : TelegramMessage => a.id ≤ b.id) msgs).map TelegramMessage.id
    exact hp.nodup_iff.mpr hnd
  have h3 : (sortById msgs).Pairwise (fun a b => a.id ≠ b.id) :=
    List.pairwise_map.mp h2
  exact (h1.and h3).imp (fun hab => Nat.lt_of_le_of_ne hab.1 hab.2)

/-- C3 (amended): for a dialog with a stored cursor, `processDialog` on a
batch with distinct ids forwards exactly the messages whose id is
strictly greater than the cursor id, in ascending id order; messages
with id equal to the cursor id are skipped even when their fingerprint
differs (the `message.id <= lastSeenId` check runs before
`isNewMessage`, making the equal-id fingerprint clause unreachable), and
messages with smaller ids are never forwarded. -/
theorem forwards_exactly_ids_above_cursor
    (s : MessageState) (msgs : List TelegramMessage)
    (hnd : (msgs.map TelegramMessage.id).Nodup) :
    (processDialog (some s) msgs).2
      = (sortById msgs).filter (fun m => decide (s.id < m.id))
    ∧ ∀ m ∈ (processDialog (some s) msgs).2, s.id < m.id := by
  have heq : (processDialog (some s) msgs).2
      = (sortById msgs).filter (fun m => decide (s.id < m.id)) := by
    show (processLoop (some s.id) (some s) (sortById msgs)).2 = _
    exact processLoop_spec s.id (sortById msgs) s (Nat.le_refl s.id)
      (sortById_pairwise msgs hnd)
      (fun m _ => le_or_lt m.id s.id)
  refine ⟨heq, ?_⟩
  intro m hm
  rw [heq] at hm
  simpa using (List.mem_filter.mp hm).2

/-- Witness for C3: cursor id 10 (fingerprint of "hi"), batch with ids
[9, 11, 12, 10] where message 10's text is unchanged — exactly 11 then
12 are forwarded. -/
theorem forwards_exactly_ids_above_cursor_witness :
    (processDialog (some ⟨10, "d", hashText "hi"⟩)
      [⟨9, "a", "m9"⟩, ⟨11, "b", "m11"⟩, ⟨12, "c", "m12"⟩, ⟨10, "d", "hi"⟩]).2
      = [⟨11, "b", "m11"⟩, ⟨12, "c", "m12"⟩] := by
  have h := forwards_exactly_ids_above_cursor ⟨10, "d", hashText "hi"⟩
    [⟨9, "a", "m9"⟩, ⟨11, "b", "m11"⟩, ⟨12, "c", "m12"⟩, ⟨10, "d", "hi"⟩]
    (by decide)
  exact h.1.trans (by decide)

set_option maxRecDepth 4000 in
/-- Counterexample to C3 as stated: with cursor id 10 and stored
fingerprint of "hello", a batch containing message 10 edited to
"edited" (a different fingerprint) forwards nothing — the claim requires
it to be forwarded. -/
theorem edited_message_at_cursor_not_forwarded :
    hashText "edited" ≠ hashText "hello"
    ∧ (processDialog (some ⟨10, "d1", hashText "hello"⟩)
        [⟨10, "d2", "edited"⟩]).2 = [] := by
  constructor
  · decide
  · rfl

end Telegram
